import Mathlib

/-!
Verification of the StreamKeeper tiered cache layer.

This file embeds the caching components of the StreamKeeper repository:

* `StreamKeeper.CacheManager` models
  `StreamKeeper-Node-Backend/cache/CacheManager.js` — the singleton
  multi-tier cache manager with its `moveToTopOfFlex`,
  `incrementAccessCount` and `handle` methods.
* `StreamKeeper.BaseCache` models the generic keyed entry store
  (`BaseCache` class) used by the frontend.

JavaScript `Map` objects are modelled as insertion-ordered association
lists (`List (String × α)`): `Map.prototype.set` updates an existing key
in place (keeping its position) and otherwise appends, `Map.prototype.delete`
removes the entry, and iteration (`Array.from(map.entries())`) yields the
entries in insertion order.  Wall-clock instants (`new Date()`) are
modelled as integers (milliseconds), passed explicitly to each operation;
`dateA - dateB` in the source is integer subtraction here.

The asynchronous producer callback (`fetchFunction`) is modelled by its
outcome, a value of type `Except ε V`: `Except.ok` for a resolved promise
and `Except.error` for a rejected one.  `handle` additionally reports
whether it consulted the producer (`invoked`), which in the source
corresponds to `fetchFunction` being called (awaited) during the call.
-/

set_option autoImplicit false

namespace StreamKeeper

variable {α : Type} {V : Type} {ε : Type}

/-! ## JavaScript `Map` model -/

/-- `Map.prototype.get`: first entry with the given key, if any. -/
def mapGet : List (String × α) → String → Option α
  | [], _ => none
  | (k', v) :: rest, k => if k' = k then some v else mapGet rest k

/-- `Map.prototype.has`. -/
def mapHas (m : List (String × α)) (k : String) : Bool :=
  (mapGet m k).isSome

/-- `Map.prototype.set`: update an existing key in place, else append. -/
def mapSet : List (String × α) → String → α → List (String × α)
  | [], k, v => [(k, v)]
  | (k', v') :: rest, k, v =>
    if k' = k then (k, v) :: rest else (k', v') :: mapSet rest k v

/-- `Map.prototype.delete`: remove the entry with the given key. -/
def mapDelete : List (String × α) → String → List (String × α)
  | [], _ => []
  | (k', v') :: rest, k => if k' = k then rest else (k', v') :: mapDelete rest k

/-- The keys of a map, in insertion order. -/
def mapKeys (m : List (String × α)) : List String :=
  m.map Prod.fst

/-! ## `JSON.stringify` model

`CacheManager.handle` derives its cache key as
`` `${endpoint}_${JSON.stringify(params)}` ``.  The `params` arguments are
flat JavaScript objects of query parameters (see `helpers/tmdbHelper.js`);
they are modelled as lists of key/value string pairs in property order,
since `JSON.stringify` serializes object properties in insertion order.
String values are serialized with the JSON escaping rules: `"` and `\`
are preceded by a backslash and control characters (code points below 32)
become `\u00XX` escapes. -/

/-- Opening brace character. -/
def lbrace : Char := Char.ofNat 123

/-- Closing brace character. -/
def rbrace : Char := Char.ofNat 125

/-- Lower-case hexadecimal digit for `n < 16`. -/
def hexDigit (n : Nat) : Char :=
  if n < 10 then Char.ofNat (48 + n) else Char.ofNat (87 + n)

/-- Numeric value of a lower-case hexadecimal digit. -/
def hexVal (c : Char) : Nat :=
  if 97 ≤ c.toNat then c.toNat - 87 else c.toNat - 48

/-- JSON escape of a single character inside a string literal. -/
def escChar (c : Char) : List Char :=
  if c = '"' ∨ c = '\\' then ['\\', c]
  else if c.toNat < 32 then
    ['\\', 'u', '0', '0', hexDigit (c.toNat / 16), hexDigit (c.toNat % 16)]
  else [c]

/-- JSON escape of a character sequence. -/
def escape (s : List Char) : List Char :=
  s.flatMap escChar

/-- A JSON string literal: quote, escaped content, quote. -/
def jstrChars (s : String) : List Char :=
  '"' :: escape s.data ++ ['"']

/-- One `"key":"value"` member of a JSON object. -/
def pairChars (p : String × String) : List Char :=
  jstrChars p.1 ++ ':' :: jstrChars p.2

/-- Comma-separated members of a JSON object. -/
def pairsChars : List (String × String) → List Char
  | [] => []
  | [p] => pairChars p
  | p :: rest => pairChars p ++ ',' :: pairsChars rest

/-- `JSON.stringify` on a flat object with string values, in property
order. -/
def jsonStringify (ps : List (String × String)) : String :=
  ⟨lbrace :: pairsChars ps ++ [rbrace]⟩

/-- The cache key `` `${endpoint}_${JSON.stringify(params)}` `` from
`CacheManager.handle`. -/
def cacheKey (endpoint : String) (params : List (String × String)) : String :=
  endpoint ++ "_" ++ jsonStringify params

/-! ## Parsers for the `JSON.stringify` image

These parsers invert the serializer on its image; they exist only to
prove that the derived cache key determines the parameter list. -/

/-- Consume the escaped body of a JSON string literal up to and
including its closing quote, returning the decoded characters and the
remaining input.  The fuel argument makes the recursion structural; one
unit is spent per decoded character, so any fuel at least the input
length suffices. -/
def parseEsc : Nat → List Char → Option (List Char × List Char)
  | 0, _ => none
  | _ + 1, [] => none
  | fuel + 1, c :: rest =>
    if c = '"' then some ([], rest)
    else if c = '\\' then
      match rest with
      | 'u' :: _ :: _ :: h :: l :: rest3 =>
        (parseEsc fuel rest3).map fun p =>
          (Char.ofNat (16 * hexVal h + hexVal l) :: p.1, p.2)
      | d :: rest2 => (parseEsc fuel rest2).map fun p => (d :: p.1, p.2)
      | [] => none
    else (parseEsc fuel rest).map fun p => (c :: p.1, p.2)

/-- Consume one `"key":"value"` member, returning the pair and the
remaining input. -/
def parsePair (l : List Char) : Option ((String × String) × List Char) :=
  match l with
  | '"' :: t =>
    match parseEsc t.length t with
    | some (k, ':' :: '"' :: t2) =>
      match parseEsc t2.length t2 with
      | some (v, r) => some ((⟨k⟩, ⟨v⟩), r)
      | none => none
    | _ => none
  | _ => none

/-- Consume a nonempty comma-separated member list terminated by a
closing brace. -/
def parsePairsAux : Nat → List Char → Option (List (String × String) × List Char)
  | 0, _ => none
  | fuel + 1, l =>
    match parsePair l with
    | some (p, c :: t) =>
      if c = ',' then
        (parsePairsAux fuel t).map fun q => (p :: q.1, q.2)
      else if c = rbrace then some ([p], t)
      else none
    | _ => none

/-- Consume a serialized flat object, returning the pair list and the
remaining input. -/
def parseObj (l : List Char) : Option (List (String × String) × List Char) :=
  match l with
  | c :: d :: r =>
    if c = lbrace ∧ d = rbrace then some ([], r)
    else if c = lbrace then parsePairsAux ((d :: r).length) (d :: r)
    else none
  | _ => none

/-! ## `CacheManager` model

The fields and constants of the `CacheManager` singleton from
`cache/CacheManager.js`. -/

/-- `this.refreshInterval`: 8 hours in milliseconds. -/
def refreshInterval : Int := 8 * 60 * 60 * 1000

/-- `this.favoriteResetInterval`: 24 hours in milliseconds. -/
def favoriteResetInterval : Int := 24 * 60 * 60 * 1000

/-- `this.flexLimit`: maximum number of entries allowed in the flex cache. -/
def flexLimit : Nat := 100

/-- `this.flexClearAmount`: number of entries to clear when the limit is
reached. -/
def flexClearAmount : Nat := 60

/-- `this.favoriteThreshold`: access count at which a flex entry moves to
the favorite cache. -/
def favoriteThreshold : Nat := 7

/-- `this.primaryEndpoints`. -/
def primaryEndpoints : List String :=
  ["/movie/top_rated", "/movie/popular", "/movie/now_playing",
   "/movie/upcoming", "/tv/popular", "/tv/on_the_air",
   "/tv/airing_today", "/tv/top_rated"]

/-- `this.blacklistedEndpoints`. -/
def blacklistedEndpoints : List String :=
  ["/configuration", "/validate", "/health"]

/-- The mutable state of the `CacheManager` singleton: the three tier
maps, the flex access counters and the two lazy-expiry timestamps. -/
structure CMState (V : Type) where
  baseCache : List (String × V)
  lastBaseRefresh : Int
  flexCache : List (String × V)
  flexAccessCounts : List (String × Nat)
  favoriteCache : List (String × V)
  lastFavoriteReset : Int
  deriving Repr, DecidableEq

/-- The constructor state: all tiers empty, both timestamps set to the
construction time. -/
def initState (t : Int) : CMState V :=
  ⟨[], t, [], [], [], t⟩

/-- `needsBaseCacheRefresh()`. -/
def needsBaseCacheRefresh (now : Int) (s : CMState V) : Bool :=
  refreshInterval < now - s.lastBaseRefresh

/-- `needsFavoriteCacheReset()`. -/
def needsFavoriteCacheReset (now : Int) (s : CMState V) : Bool :=
  favoriteResetInterval < now - s.lastFavoriteReset

/-- `moveToTopOfFlex(key, value)`: delete the key, bulk-trim the map to
its first `flexLimit - flexClearAmount` entries when it still holds
`flexLimit` or more entries (`Array.from(entries).slice(0, limit - clearAmount)`
keeps the first entries in insertion order), then insert the key so it
becomes the newest entry. -/
def moveToTopOfFlex (key : String) (value : V) (flex : List (String × V)) :
    List (String × V) :=
  let flex1 := mapDelete flex key
  let flex2 :=
    if flexLimit ≤ flex1.length then
      flex1.take (flexLimit - flexClearAmount)
    else flex1
  mapSet flex2 key value

/-- `incrementAccessCount(key)`: bump the access counter; at
`favoriteThreshold`, copy the flex value into the favorite cache and
delete the key from the flex cache and from the counter map.  In the
source, `favoriteCache.set(key, flexCache.get(key))` would store
`undefined` when the key is missing from the flex cache; `handle` only
calls this method while the key is present there, and the model omits
that degenerate write. -/
def incrementAccessCount (key : String) (s : CMState V) : Nat × CMState V :=
  let currentCount := (mapGet s.flexAccessCounts key).getD 0
  let newCount := currentCount + 1
  let s1 := { s with flexAccessCounts := mapSet s.flexAccessCounts key newCount }
  if favoriteThreshold ≤ newCount then
    let s2 :=
      match mapGet s1.flexCache key with
      | some value => { s1 with favoriteCache := mapSet s1.favoriteCache key value }
      | none => s1
    (newCount,
     { s2 with
        flexCache := mapDelete s2.flexCache key,
        flexAccessCounts := mapDelete s2.flexAccessCounts key })
  else
    (newCount, s1)

/-- The lazy favorite-cache reset at the top of `handle`. -/
def applyFavoriteReset (now : Int) (s : CMState V) : CMState V :=
  if needsFavoriteCacheReset now s then
    { s with favoriteCache := [], lastFavoriteReset := now }
  else s

/-- The lazy base-cache refresh in the primary branch of `handle`. -/
def applyBaseRefresh (now : Int) (s : CMState V) : CMState V :=
  if needsBaseCacheRefresh now s then
    { s with baseCache := [], lastBaseRefresh := now }
  else s

/-- The observable outcome of one `handle` call: the value returned (or
the propagated rejection), the state after the call, and whether the
producer callback was awaited during the call. -/
structure HandleResult (ε V : Type) where
  result : Except ε V
  state : CMState V
  invoked : Bool
  deriving Repr

/-- `handle(endpoint, params, fetchFunction)`.  `fetchResult` is the
outcome the producer callback would deliver if awaited.  The two
`fetchResult` matches correspond to the single `try { await
fetchFunction() }` block of the source, reached from the primary and the
default branch respectively. -/
def handle (now : Int) (endpoint : String) (params : List (String × String))
    (fetchResult : Except ε V) (s : CMState V) : HandleResult ε V :=
  if endpoint ∈ blacklistedEndpoints then
    ⟨fetchResult, s, true⟩
  else
    let key := cacheKey endpoint params
    let s1 := applyFavoriteReset now s
    if endpoint ∈ primaryEndpoints then
      let s2 := applyBaseRefresh now s1
      match mapGet s2.baseCache key with
      | some cached => ⟨.ok cached, s2, false⟩
      | none =>
        match fetchResult with
        | .ok data =>
          ⟨.ok data, { s2 with baseCache := mapSet s2.baseCache key data }, true⟩
        | .error err => ⟨.error err, s2, true⟩
    else
      match mapGet s1.favoriteCache key with
      | some cached => ⟨.ok cached, s1, false⟩
      | none =>
        match mapGet s1.flexCache key with
        | some value =>
          let s2 := (incrementAccessCount key s1).2
          let s3 := { s2 with flexCache := moveToTopOfFlex key value s2.flexCache }
          ⟨.ok value, s3, false⟩
        | none =>
          match fetchResult with
          | .ok data =>
            let s2 := { s1 with flexCache := moveToTopOfFlex key data s1.flexCache }
            let s3 := (incrementAccessCount key s2).2
            ⟨.ok data, s3, true⟩
          | .error err => ⟨.error err, s1, true⟩

/-- One request presented to the cache layer: a call instant, the
endpoint, its parameters and the outcome the producer would deliver. -/
structure Request (ε V : Type) where
  now : Int
  endpoint : String
  params : List (String × String)
  fetchResult : Except ε V

/-- Folding a sequence of requests through `handle`. -/
def runRequests (s : CMState V) : List (Request ε V) → CMState V
  | [] => s
  | r :: rest => runRequests (handle r.now r.endpoint r.params r.fetchResult s).state rest

/-! ## `BaseCache` model

The generic keyed entry store from the `BaseCache` class: a map from key
to a record of value plus metadata, with cache-level bookkeeping
timestamps. -/

/-- One stored entry: the value plus its metadata. -/
structure BCEntry (V : Type) where
  value : V
  createdAt : Int
  lastAccessed : Int
  accessCount : Nat
  deriving Repr, DecidableEq

/-- The state of a `BaseCache` instance. -/
structure BaseCache (V : Type) where
  cache : List (String × BCEntry V)
  cacheName : String
  createdAt : Int
  lastUpdated : Int
  deriving Repr, DecidableEq

/-- `new BaseCache(cacheName)`. -/
def BaseCache.init (now : Int) (cacheName : String) : BaseCache V :=
  ⟨[], cacheName, now, now⟩

/-- `BaseCache.prototype.create(key, value)`: throws when the key exists
(modelled as an `Except.error` carrying the message, with the state
returned unchanged); otherwise inserts a fresh entry with access count 0,
stamps `lastUpdated` and returns `true`. -/
def BaseCache.create (now : Int) (key : String) (value : V) (s : BaseCache V) :
    Except String Bool × BaseCache V :=
  if mapHas s.cache key then
    (Except.error ("Key " ++ key ++ " already exists in cache " ++ s.cacheName), s)
  else
    (Except.ok true,
     { s with
        cache := mapSet s.cache key ⟨value, now, now, 0⟩,
        lastUpdated := now })

/-- `BaseCache.prototype.get(key)`: `null` on a missing key with no
mutation; on a hit, refreshes the last-access time, increments the
access counter in place and returns the value. -/
def BaseCache.get (now : Int) (key : String) (s : BaseCache V) :
    Option V × BaseCache V :=
  match mapGet s.cache key with
  | none => (none, s)
  | some entry =>
    (some entry.value,
     { s with
        cache := mapSet s.cache key
          { entry with lastAccessed := now, accessCount := entry.accessCount + 1 } })

/-! ## Concrete fixtures for counterexamples and witnesses -/

/-- A flex tier holding 100 distinct entries `k0 .. k99` in insertion
order. -/
def sampleFlex : List (String × Nat) :=
  (List.range 100).map (fun i => ("k" ++ toString i, i))

/-- A manager state whose flex tier is full and whose counter map tracks
the flex-resident key `k50`. -/
def c4State : CMState Nat :=
  { baseCache := [], lastBaseRefresh := 0, flexCache := sampleFlex,
    flexAccessCounts := [("k50", 3)], favoriteCache := [], lastFavoriteReset := 0 }

/-! ## Lemmas about the map model -/

@[simp] theorem mapGet_nil (k : String) : mapGet ([] : List (String × α)) k = none := rfl

@[simp] theorem mapGet_mapSet_self (m : List (String × α)) (k : String) (v : α) :
    mapGet (mapSet m k v) k = some v := by
  induction m with
  | nil => simp [mapSet, mapGet]
  | cons hd tl ih =>
    obtain ⟨k', v'⟩ := hd
    by_cases h : k' = k <;> simp [mapSet, mapGet, h, ih]

theorem mapGet_mapSet_ne (m : List (String × α)) (k k' : String) (v : α)
    (h : k' ≠ k) : mapGet (mapSet m k v) k' = mapGet m k' := by
  have h' : k ≠ k' := Ne.symm h
  induction m with
  | nil => simp [mapSet, mapGet, h']
  | cons hd tl ih =>
    obtain ⟨k₀, v₀⟩ := hd
    by_cases h0 : k₀ = k
    · subst h0
      simp [mapSet, mapGet, h']
    · simp only [mapSet, if_neg h0, mapGet]
      by_cases h1 : k₀ = k' <;> simp [h1, ih]

theorem mapGet_mapDelete_ne (m : List (String × α)) (k k' : String)
    (h : k' ≠ k) : mapGet (mapDelete m k) k' = mapGet m k' := by
  have h' : k ≠ k' := Ne.symm h
  induction m with
  | nil => simp [mapDelete]
  | cons hd tl ih =>
    obtain ⟨k₀, v₀⟩ := hd
    by_cases h0 : k₀ = k
    · subst h0
      simp [mapDelete, mapGet, h']
    · simp only [mapDelete, if_neg h0, mapGet]
      by_cases h1 : k₀ = k' <;> simp [h1, ih]

theorem mapGet_mapDelete_self (m : List (String × α)) (k : String)
    (h : (mapKeys m).Nodup) : mapGet (mapDelete m k) k = none := by
  induction m with
  | nil => simp [mapDelete]
  | cons hd tl ih =>
    obtain ⟨k₀, v₀⟩ := hd
    simp only [mapKeys, List.map_cons, List.nodup_cons] at h
    by_cases h0 : k₀ = k
    · subst h0
      have hall : ∀ x ∈ tl, x.1 ≠ k₀ := by
        intro x hx heq
        exact h.1 (heq ▸ List.mem_map_of_mem Prod.fst hx)
      simp only [mapDelete, if_pos rfl]
      clear ih h
      induction tl with
      | nil => simp
      | cons hd₂ tl₂ ih₂ =>
        obtain ⟨k₂, v₂⟩ := hd₂
        have hk₂ : k₂ ≠ k₀ := hall (k₂, v₂) (by simp)
        simp only [mapGet, if_neg hk₂]
        exact ih₂ (fun x hx => hall x (List.mem_cons_of_mem _ hx))
    · simp only [mapDelete, if_neg h0, mapGet, if_neg h0]
      exact ih h.2

theorem mapDelete_of_not_mem (m : List (String × α)) (k : String)
    (h : k ∉ mapKeys m) : mapDelete m k = m := by
  induction m with
  | nil => rfl
  | cons hd tl ih =>
    obtain ⟨k₀, v₀⟩ := hd
    simp only [mapKeys, List.map_cons, List.mem_cons] at h
    push_neg at h
    simp only [mapDelete, if_neg (Ne.symm h.1)]
    rw [ih h.2]

theorem mapSet_of_not_mem (m : List (String × α)) (k : String) (v : α)
    (h : k ∉ mapKeys m) : mapSet m k v = m ++ [(k, v)] := by
  induction m with
  | nil => rfl
  | cons hd tl ih =>
    obtain ⟨k₀, v₀⟩ := hd
    simp only [mapKeys, List.map_cons, List.mem_cons] at h
    push_neg at h
    simp only [mapSet, if_neg (Ne.symm h.1), List.cons_append]
    rw [ih h.2]

theorem mapSet_length_le (m : List (String × α)) (k : String) (v : α) :
    (mapSet m k v).length ≤ m.length + 1 := by
  induction m with
  | nil => simp [mapSet]
  | cons hd tl ih =>
    obtain ⟨k₀, v₀⟩ := hd
    by_cases h0 : k₀ = k
    · simp [mapSet, h0]
    · simp only [mapSet, if_neg h0, List.length_cons]
      omega

theorem mapDelete_length_le (m : List (String × α)) (k : String) :
    (mapDelete m k).length ≤ m.length := by
  induction m with
  | nil => simp [mapDelete]
  | cons hd tl ih =>
    obtain ⟨k₀, v₀⟩ := hd
    by_cases h0 : k₀ = k
    · simp [mapDelete, h0]
    · simp only [mapDelete, if_neg h0, List.length_cons]
      omega

/-! ## Structural lemmas about the state operations -/

@[simp] theorem applyFavoriteReset_flexCache (now : Int) (s : CMState V) :
    (applyFavoriteReset now s).flexCache = s.flexCache := by
  unfold applyFavoriteReset; split <;> rfl

@[simp] theorem applyFavoriteReset_flexAccessCounts (now : Int) (s : CMState V) :
    (applyFavoriteReset now s).flexAccessCounts = s.flexAccessCounts := by
  unfold applyFavoriteReset; split <;> rfl

@[simp] theorem applyFavoriteReset_baseCache (now : Int) (s : CMState V) :
    (applyFavoriteReset now s).baseCache = s.baseCache := by
  unfold applyFavoriteReset; split <;> rfl

@[simp] theorem applyFavoriteReset_lastBaseRefresh (now : Int) (s : CMState V) :
    (applyFavoriteReset now s).lastBaseRefresh = s.lastBaseRefresh := by
  unfold applyFavoriteReset; split <;> rfl

theorem applyFavoriteReset_favoriteCache_or (now : Int) (s : CMState V) :
    (applyFavoriteReset now s).favoriteCache = s.favoriteCache ∨
      (applyFavoriteReset now s).favoriteCache = [] := by
  unfold applyFavoriteReset; split
  · exact Or.inr rfl
  · exact Or.inl rfl

theorem applyFavoriteReset_of_not_needed (now : Int) (s : CMState V)
    (h : needsFavoriteCacheReset now s = false) :
    applyFavoriteReset now s = s := by
  unfold applyFavoriteReset
  rw [h]
  rfl

theorem applyFavoriteReset_of_needed (now : Int) (s : CMState V)
    (h : needsFavoriteCacheReset now s = true) :
    applyFavoriteReset now s = { s with favoriteCache := [], lastFavoriteReset := now } := by
  unfold applyFavoriteReset
  rw [h]
  rfl

@[simp] theorem applyBaseRefresh_flexCache (now : Int) (s : CMState V) :
    (applyBaseRefresh now s).flexCache = s.flexCache := by
  unfold applyBaseRefresh; split <;> rfl

@[simp] theorem applyBaseRefresh_flexAccessCounts (now : Int) (s : CMState V) :
    (applyBaseRefresh now s).flexAccessCounts = s.flexAccessCounts := by
  unfold applyBaseRefresh; split <;> rfl

@[simp] theorem applyBaseRefresh_favoriteCache (now : Int) (s : CMState V) :
    (applyBaseRefresh now s).favoriteCache = s.favoriteCache := by
  unfold applyBaseRefresh; split <;> rfl

@[simp] theorem applyBaseRefresh_lastFavoriteReset (now : Int) (s : CMState V) :
    (applyBaseRefresh now s).lastFavoriteReset = s.lastFavoriteReset := by
  unfold applyBaseRefresh; split <;> rfl

theorem applyBaseRefresh_baseCache_or (now : Int) (s : CMState V) :
    (applyBaseRefresh now s).baseCache = s.baseCache ∨
      (applyBaseRefresh now s).baseCache = [] := by
  unfold applyBaseRefresh; split
  · exact Or.inr rfl
  · exact Or.inl rfl

theorem applyBaseRefresh_of_not_needed (now : Int) (s : CMState V)
    (h : needsBaseCacheRefresh now s = false) :
    applyBaseRefresh now s = s := by
  unfold applyBaseRefresh
  rw [h]
  rfl

@[simp] theorem incrementAccessCount_lastFavoriteReset (key : String) (s : CMState V) :
    (incrementAccessCount key s).2.lastFavoriteReset = s.lastFavoriteReset := by
  simp only [incrementAccessCount]
  split
  · split <;> rfl
  · rfl

@[simp] theorem incrementAccessCount_lastBaseRefresh (key : String) (s : CMState V) :
    (incrementAccessCount key s).2.lastBaseRefresh = s.lastBaseRefresh := by
  simp only [incrementAccessCount]
  split
  · split <;> rfl
  · rfl

@[simp] theorem incrementAccessCount_baseCache (key : String) (s : CMState V) :
    (incrementAccessCount key s).2.baseCache = s.baseCache := by
  simp only [incrementAccessCount]
  split
  · split <;> rfl
  · rfl

theorem incrementAccessCount_favoriteCache_or (key : String) (s : CMState V) :
    (incrementAccessCount key s).2.favoriteCache = s.favoriteCache ∨
      ∃ v, (incrementAccessCount key s).2.favoriteCache = mapSet s.favoriteCache key v := by
  simp only [incrementAccessCount]
  split
  · split
    · exact Or.inr ⟨_, rfl⟩
    · exact Or.inl rfl
  · exact Or.inl rfl

theorem incrementAccessCount_flexCache_or (key : String) (s : CMState V) :
    (incrementAccessCount key s).2.flexCache = s.flexCache ∨
      (incrementAccessCount key s).2.flexCache = mapDelete s.flexCache key := by
  simp only [incrementAccessCount]
  split
  · split <;> exact Or.inr rfl
  · exact Or.inl rfl

theorem incrementAccessCount_counts_ne (key k : String) (s : CMState V)
    (h : k ≠ key) :
    mapGet (incrementAccessCount key s).2.flexAccessCounts k =
      mapGet s.flexAccessCounts k := by
  simp only [incrementAccessCount]
  split
  · split <;>
      simp [mapGet_mapDelete_ne _ _ _ h, mapGet_mapSet_ne _ _ _ _ h]
  · simp [mapGet_mapSet_ne _ _ _ _ h]

/-- `handle` on a blacklisted endpoint: the producer outcome is returned
directly, the state is untouched, the producer is awaited. -/
theorem handle_blacklisted (now : Int) (endpoint : String)
    (params : List (String × String)) (fr : Except ε V) (s : CMState V)
    (h : endpoint ∈ blacklistedEndpoints) :
    handle now endpoint params fr s = ⟨fr, s, true⟩ := by
  simp [handle, h]

/-- `handle` on a non-primary endpoint whose key sits in the favorite
cache, with no favorite reset due: a pure favorite hit. -/
theorem handle_favorite_hit (now : Int) (endpoint : String)
    (params : List (String × String)) (fr : Except ε V) (s : CMState V) (v : V)
    (hb : endpoint ∉ blacklistedEndpoints)
    (hp : endpoint ∉ primaryEndpoints)
    (hr : needsFavoriteCacheReset now s = false)
    (hfav : mapGet s.favoriteCache (cacheKey endpoint params) = some v) :
    handle now endpoint params fr s = ⟨.ok v, s, false⟩ := by
  simp only [handle, if_neg hb, applyFavoriteReset_of_not_needed now s hr,
    if_neg hp, hfav]

theorem needsFavoriteCacheReset_eq_false (now : Int) (s : CMState V)
    (h : now - s.lastFavoriteReset ≤ favoriteResetInterval) :
    needsFavoriteCacheReset now s = false := by
  simp only [needsFavoriteCacheReset, decide_eq_false_iff_not, not_lt]
  exact h

theorem needsFavoriteCacheReset_eq_true (now : Int) (s : CMState V)
    (h : favoriteResetInterval < now - s.lastFavoriteReset) :
    needsFavoriteCacheReset now s = true := by
  simp only [needsFavoriteCacheReset, decide_eq_true_eq]
  exact h

theorem needsBaseCacheRefresh_eq_false (now : Int) (s : CMState V)
    (h : now - s.lastBaseRefresh ≤ refreshInterval) :
    needsBaseCacheRefresh now s = false := by
  simp only [needsBaseCacheRefresh, decide_eq_false_iff_not, not_lt]
  exact h

theorem needsBaseCacheRefresh_eq_true (now : Int) (s : CMState V)
    (h : refreshInterval < now - s.lastBaseRefresh) :
    needsBaseCacheRefresh now s = true := by
  simp only [needsBaseCacheRefresh, decide_eq_true_eq]
  exact h

/-! ## Claim theorems -/

/-- C7: for every blacklisted endpoint, every `handle` call awaits the
producer and returns its outcome directly — resolved value or rejection —
with no cache read or write (the state is returned untouched); in
particular two consecutive calls with identical parameters await the
producer twice. -/
theorem c7_blacklist_bypass (now1 now2 : Int) (endpoint : String)
    (params : List (String × String)) (fr1 fr2 : Except ε V) (s : CMState V)
    (h : endpoint ∈ blacklistedEndpoints) :
    handle now1 endpoint params fr1 s = ⟨fr1, s, true⟩ ∧
    handle now2 endpoint params fr2 (handle now1 endpoint params fr1 s).state =
      ⟨fr2, s, true⟩ := by
  have h1 := handle_blacklisted now1 endpoint params fr1 s h
  refine ⟨h1, ?_⟩
  rw [h1]
  exact handle_blacklisted now2 endpoint params fr2 s h

/-- Witness for C7 at a concrete input: `/health` is blacklisted; a call
returns the resolved value untouched, a second call propagates the
rejection, both leaving the fresh state unchanged. -/
theorem c7_blacklist_bypass_witness :
    handle (ε := String) (V := Nat) 0 "/health" [] (Except.ok 1) (initState 0) =
      ⟨Except.ok 1, initState 0, true⟩ ∧
    handle 5 "/health" [] (Except.error "TMDB API Error")
        (handle (ε := String) (V := Nat) 0 "/health" [] (Except.ok 1) (initState 0)).state =
      ⟨Except.error "TMDB API Error", initState 0, true⟩ :=
  c7_blacklist_bypass 0 5 "/health" [] (Except.ok 1)
    (Except.error "TMDB API Error") (initState 0) (by decide)

/-- C9 counterexample: a blacklisted call made after the favorite reset
interval has elapsed leaves the favorite tier uncleared and the reset
timestamp unchanged, because `handle` returns before the reset check. -/
theorem c9_counterexample :
    (let s' := (handle (ε := String) (favoriteResetInterval + 1) "/health" []
        (Except.ok 2) (⟨[], 0, [], [], [("old", 1)], 0⟩ : CMState Nat)).state;
    mapHas s'.favoriteCache "old" = true ∧
      s'.lastFavoriteReset ≠ favoriteResetInterval + 1) := by
  decide

/-- C9 (amended): on every non-blacklisted call — primary or default —
made after the favorite reset interval has elapsed, the favorite tier is
cleared during the call (every surviving favorite key can only be the
current request's key, re-promoted later in the same call) and the reset
timestamp is set to the call instant.  Blacklisted calls return before
the check and skip it. -/
theorem c9_favorite_reset_nonblacklisted (now : Int) (endpoint : String)
    (params : List (String × String)) (fr : Except ε V) (s : CMState V)
    (hb : endpoint ∉ blacklistedEndpoints)
    (hr : favoriteResetInterval < now - s.lastFavoriteReset) :
    (handle now endpoint params fr s).state.lastFavoriteReset = now ∧
    ∀ k, mapHas (handle now endpoint params fr s).state.favoriteCache k = true →
      k = cacheKey endpoint params := by
  have hneeds := needsFavoriteCacheReset_eq_true now s hr
  simp only [handle, if_neg hb, applyFavoriteReset_of_needed now s hneeds]
  by_cases hp : endpoint ∈ primaryEndpoints
  · simp only [if_pos hp]
    set s1 : CMState V := { s with favoriteCache := [], lastFavoriteReset := now } with hs1
    cases hbase : mapGet (applyBaseRefresh now s1).baseCache (cacheKey endpoint params) with
    | some cached =>
      simp only [hbase]
      refine ⟨by simp [hs1], ?_⟩
      intro k hk
      rw [applyBaseRefresh_favoriteCache] at hk
      simp [hs1, mapHas] at hk
    | none =>
      cases fr with
      | ok data =>
        simp only [hbase]
        refine ⟨by simp [hs1], ?_⟩
        intro k hk
        simp only [applyBaseRefresh_favoriteCache] at hk
        simp [hs1, mapHas] at hk
      | error err =>
        simp only [hbase]
        refine ⟨by simp [hs1], ?_⟩
        intro k hk
        rw [applyBaseRefresh_favoriteCache] at hk
        simp [hs1, mapHas] at hk
  · simp only [if_neg hp]
    set s1 : CMState V := { s with favoriteCache := [], lastFavoriteReset := now } with hs1
    have hfav : mapGet s1.favoriteCache (cacheKey endpoint params) = none := by
      simp [hs1]
    simp only [hfav]
    cases hflex : mapGet s1.flexCache (cacheKey endpoint params) with
    | some value =>
      simp only [hflex]
      constructor
      · simp [incrementAccessCount_lastFavoriteReset, hs1]
      · intro k hk
        simp only [mapHas] at hk
        rcases incrementAccessCount_favoriteCache_or (cacheKey endpoint params) s1 with
          hor | ⟨v, hor⟩
        · rw [hor] at hk
          simp [hs1] at hk
        · rw [hor] at hk
          by_contra hne
          rw [mapGet_mapSet_ne _ _ _ _ hne] at hk
          simp [hs1] at hk
    | none =>
      cases fr with
      | ok data =>
        simp only [hflex]
        constructor
        · simp [incrementAccessCount_lastFavoriteReset, hs1]
        · intro k hk
          simp only [mapHas] at hk
          rcases incrementAccessCount_favoriteCache_or (cacheKey endpoint params)
              { s1 with
                  flexCache := moveToTopOfFlex (cacheKey endpoint params) data s1.flexCache }
            with hor | ⟨v, hor⟩
          · rw [hor] at hk
            simp [hs1] at hk
          · rw [hor] at hk
            by_contra hne
            rw [mapGet_mapSet_ne _ _ _ _ hne] at hk
            simp [hs1] at hk
      | error err =>
        simp only [hflex]
        exact ⟨by simp [hs1], fun k hk => by simp [hs1, mapHas] at hk⟩

/-- Witness for C9 (amended) at a concrete input: a default-tier call
after the interval clears the stale favorite entry and stamps the reset
time. -/
theorem c9_favorite_reset_nonblacklisted_witness :
    ((handle (ε := String) (favoriteResetInterval + 1) "/search/movie" []
        (Except.ok 2) (⟨[], 0, [], [], [("old", 1)], 0⟩ : CMState Nat)).state.lastFavoriteReset =
      favoriteResetInterval + 1) ∧
    ∀ k, mapHas (handle (ε := String) (favoriteResetInterval + 1) "/search/movie" []
        (Except.ok 2) (⟨[], 0, [], [], [("old", 1)], 0⟩ : CMState Nat)).state.favoriteCache k = true →
      k = cacheKey "/search/movie" [] :=
  c9_favorite_reset_nonblacklisted (favoriteResetInterval + 1) "/search/movie" []
    (Except.ok 2) ⟨[], 0, [], [], [("old", 1)], 0⟩ (by decide) (by decide)

/-- C5: on a non-blacklisted call that awaits the producer and sees it
reject, `handle` returns that very rejection; the flex tier and the
access counters are untouched, and the base and favorite tiers are at
most wholesale-cleared by the lazy expiry checks — no entry is written
anywhere, and no retry or fallback value is produced. -/
theorem c5_error_propagation (now : Int) (endpoint : String)
    (params : List (String × String)) (err : ε) (s : CMState V)
    (hb : endpoint ∉ blacklistedEndpoints)
    (hinv : (handle now endpoint params (Except.error err) s).invoked = true) :
    (handle now endpoint params (Except.error err) s).result = Except.error err ∧
    (handle now endpoint params (Except.error err) s).state.flexCache = s.flexCache ∧
    (handle now endpoint params (Except.error err) s).state.flexAccessCounts =
      s.flexAccessCounts ∧
    ((handle now endpoint params (Except.error err) s).state.baseCache = s.baseCache ∨
      (handle now endpoint params (Except.error err) s).state.baseCache = []) ∧
    ((handle now endpoint params (Except.error err) s).state.favoriteCache = s.favoriteCache ∨
      (handle now endpoint params (Except.error err) s).state.favoriteCache = []) := by
  by_cases hp : endpoint ∈ primaryEndpoints
  · cases hbase : mapGet (applyBaseRefresh now (applyFavoriteReset now s)).baseCache
        (cacheKey endpoint params) with
    | some cached =>
      exfalso
      have hEq : handle now endpoint params (Except.error err) s =
          ⟨Except.ok cached, applyBaseRefresh now (applyFavoriteReset now s), false⟩ := by
        simp only [handle, if_neg hb, if_pos hp, hbase]
      rw [hEq] at hinv
      simp at hinv
    | none =>
      have hEq : handle now endpoint params (Except.error err) s =
          ⟨Except.error err, applyBaseRefresh now (applyFavoriteReset now s), true⟩ := by
        simp only [handle, if_neg hb, if_pos hp, hbase]
      rw [hEq]
      refine ⟨rfl, by simp, by simp, ?_, ?_⟩
      · rcases applyBaseRefresh_baseCache_or now (applyFavoriteReset now s) with h | h
        · rw [h, applyFavoriteReset_baseCache]
          exact Or.inl rfl
        · exact Or.inr h
      · rw [applyBaseRefresh_favoriteCache]
        exact applyFavoriteReset_favoriteCache_or now s
  · cases hfav : mapGet (applyFavoriteReset now s).favoriteCache (cacheKey endpoint params) with
    | some cached =>
      exfalso
      have hEq : handle now endpoint params (Except.error err) s =
          ⟨Except.ok cached, applyFavoriteReset now s, false⟩ := by
        simp only [handle, if_neg hb, if_neg hp, hfav]
      rw [hEq] at hinv
      simp at hinv
    | none =>
      cases hflex : mapGet (applyFavoriteReset now s).flexCache (cacheKey endpoint params) with
      | some value =>
        exfalso
        have hEq : handle now endpoint params (Except.error err) s =
            ⟨Except.ok value,
             { (incrementAccessCount (cacheKey endpoint params) (applyFavoriteReset now s)).2 with
                flexCache := moveToTopOfFlex (cacheKey endpoint params) value
                  (incrementAccessCount (cacheKey endpoint params) (applyFavoriteReset now s)).2.flexCache },
             false⟩ := by
          simp only [handle, if_neg hb, if_neg hp, hfav, hflex]
        rw [hEq] at hinv
        simp at hinv
      | none =>
        have hEq : handle now endpoint params (Except.error err) s =
            ⟨Except.error err, applyFavoriteReset now s, true⟩ := by
          simp only [handle, if_neg hb, if_neg hp, hfav, hflex]
        rw [hEq]
        exact ⟨rfl, by simp, by simp, Or.inl (applyFavoriteReset_baseCache now s),
          applyFavoriteReset_favoriteCache_or now s⟩

/-- Witness for C5 at a concrete input: a rejected fetch on a fresh
default-tier miss propagates the rejection and writes nothing. -/
theorem c5_error_propagation_witness :
    (handle (V := Nat) 3 "/search/movie" [] (Except.error "TMDB API Error")
        (initState 0)).result = Except.error "TMDB API Error" ∧
    (handle (V := Nat) 3 "/search/movie" [] (Except.error "TMDB API Error")
        (initState 0)).state.flexCache = (initState 0 : CMState Nat).flexCache ∧
    (handle (V := Nat) 3 "/search/movie" [] (Except.error "TMDB API Error")
        (initState 0)).state.flexAccessCounts = (initState 0 : CMState Nat).flexAccessCounts ∧
    ((handle (V := Nat) 3 "/search/movie" [] (Except.error "TMDB API Error")
        (initState 0)).state.baseCache = (initState 0 : CMState Nat).baseCache ∨
      (handle (V := Nat) 3 "/search/movie" [] (Except.error "TMDB API Error")
        (initState 0)).state.baseCache = []) ∧
    ((handle (V := Nat) 3 "/search/movie" [] (Except.error "TMDB API Error")
        (initState 0)).state.favoriteCache = (initState 0 : CMState Nat).favoriteCache ∨
      (handle (V := Nat) 3 "/search/movie" [] (Except.error "TMDB API Error")
        (initState 0)).state.favoriteCache = []) :=
  c5_error_propagation 3 "/search/movie" [] "TMDB API Error" (initState 0)
    (by decide) (by decide)

/-- C6: for a primary endpoint with the key absent from the base tier
and neither lazy expiry due, the first call awaits the producer and
stores its value in the base tier; a second call before the refresh
interval elapses returns that stored value for every producer outcome
without awaiting it; once the interval has elapsed, the next call clears
the base tier, stamps the refresh time and awaits the producer again,
so the base tier ends up holding exactly the new value. -/
theorem c6_primary_lifecycle (now1 now2 now3 : Int) (endpoint : String)
    (params : List (String × String)) (d d3 : V) (s : CMState V)
    (hp : endpoint ∈ primaryEndpoints)
    (hmiss : mapGet s.baseCache (cacheKey endpoint params) = none)
    (h1b : now1 - s.lastBaseRefresh ≤ refreshInterval)
    (h1f : now1 - s.lastFavoriteReset ≤ favoriteResetInterval)
    (h2b : now2 - s.lastBaseRefresh ≤ refreshInterval)
    (h2f : now2 - s.lastFavoriteReset ≤ favoriteResetInterval)
    (h3b : refreshInterval < now3 - s.lastBaseRefresh)
    (h3f : now3 - s.lastFavoriteReset ≤ favoriteResetInterval) :
    handle (ε := ε) now1 endpoint params (Except.ok d) s =
      ⟨Except.ok d,
       { s with baseCache := mapSet s.baseCache (cacheKey endpoint params) d }, true⟩ ∧
    (∀ fr2 : Except ε V,
      handle now2 endpoint params fr2
          { s with baseCache := mapSet s.baseCache (cacheKey endpoint params) d } =
        ⟨Except.ok d,
         { s with baseCache := mapSet s.baseCache (cacheKey endpoint params) d }, false⟩) ∧
    handle (ε := ε) now3 endpoint params (Except.ok d3)
        { s with baseCache := mapSet s.baseCache (cacheKey endpoint params) d } =
      ⟨Except.ok d3,
       { s with baseCache := [(cacheKey endpoint params, d3)], lastBaseRefresh := now3 },
       true⟩ := by
  have hb : endpoint ∉ blacklistedEndpoints := by
    have hall : ∀ e ∈ primaryEndpoints, e ∉ blacklistedEndpoints := by decide
    exact hall endpoint hp
  refine ⟨?_, ?_, ?_⟩
  · simp only [handle, if_neg hb, if_pos hp,
      applyFavoriteReset_of_not_needed now1 s (needsFavoriteCacheReset_eq_false now1 s h1f),
      applyBaseRefresh_of_not_needed now1 s (needsBaseCacheRefresh_eq_false now1 s h1b),
      hmiss]
  · intro fr2
    set s1 : CMState V :=
      { s with baseCache := mapSet s.baseCache (cacheKey endpoint params) d } with hs1
    have hfr : needsFavoriteCacheReset now2 s1 = false :=
      needsFavoriteCacheReset_eq_false now2 s1 h2f
    have hbr : needsBaseCacheRefresh now2 s1 = false :=
      needsBaseCacheRefresh_eq_false now2 s1 h2b
    have hhit : mapGet s1.baseCache (cacheKey endpoint params) = some d := by
      rw [hs1]
      exact mapGet_mapSet_self s.baseCache (cacheKey endpoint params) d
    simp only [handle, if_neg hb, if_pos hp,
      applyFavoriteReset_of_not_needed now2 s1 hfr,
      applyBaseRefresh_of_not_needed now2 s1 hbr, hhit]
  · set s1 : CMState V :=
      { s with baseCache := mapSet s.baseCache (cacheKey endpoint params) d } with hs1
    have hfr : needsFavoriteCacheReset now3 s1 = false :=
      needsFavoriteCacheReset_eq_false now3 s1 h3f
    have hbr : needsBaseCacheRefresh now3 s1 = true :=
      needsBaseCacheRefresh_eq_true now3 s1 h3b
    have hrefresh : applyBaseRefresh now3 s1 =
        { s1 with baseCache := [], lastBaseRefresh := now3 } := by
      unfold applyBaseRefresh
      rw [hbr]
      rfl
    simp only [handle, if_neg hb, if_pos hp,
      applyFavoriteReset_of_not_needed now3 s1 hfr, hrefresh, hs1, mapGet_nil,
      mapSet]

/-- Witness for C6 at concrete inputs: `/movie/popular` from the fresh
state, second call one millisecond later, third call after the 8-hour
refresh interval. -/
theorem c6_primary_lifecycle_witness :
    (handle (ε := String) 0 "/movie/popular" [] (Except.ok 10) (initState 0) =
      ⟨Except.ok 10,
       { initState 0 with
          baseCache := mapSet (initState 0 : CMState Nat).baseCache
            (cacheKey "/movie/popular" []) 10 }, true⟩) ∧
    (∀ fr2 : Except String Nat,
      handle 1 "/movie/popular" [] fr2
          { initState 0 with
              baseCache := mapSet (initState 0 : CMState Nat).baseCache
                (cacheKey "/movie/popular" []) 10 } =
        ⟨Except.ok 10,
         { initState 0 with
            baseCache := mapSet (initState 0 : CMState Nat).baseCache
              (cacheKey "/movie/popular" []) 10 }, false⟩) ∧
    handle (ε := String) (refreshInterval + 1) "/movie/popular" [] (Except.ok 20)
        { initState 0 with
            baseCache := mapSet (initState 0 : CMState Nat).baseCache
              (cacheKey "/movie/popular" []) 10 } =
      ⟨Except.ok 20,
       { initState 0 with
          baseCache := [(cacheKey "/movie/popular" [], 20)],
          lastBaseRefresh := refreshInterval + 1 }, true⟩ :=
  c6_primary_lifecycle 0 1 (refreshInterval + 1) "/movie/popular" [] 10 20
    (initState 0) (by decide) (by decide) (by decide) (by decide) (by decide)
    (by decide) (by decide) (by decide)

theorem mapGet_eq_none_iff (m : List (String × α)) (k : String) :
    mapGet m k = none ↔ k ∉ mapKeys m := by
  induction m with
  | nil => simp [mapKeys]
  | cons hd tl ih =>
    obtain ⟨k₀, v₀⟩ := hd
    by_cases h0 : k₀ = k
    · subst h0
      simp [mapGet, mapKeys]
    · simp only [mapGet, if_neg h0, mapKeys, List.map_cons, List.mem_cons, ih]
      constructor
      · intro hk hor
        rcases hor with hor | hor
        · exact h0 hor.symm
        · exact hk hor
      · intro hk hmem
        exact hk (Or.inr hmem)

theorem mem_mapKeys_mapSet (m : List (String × α)) (k x : String) (v : α) :
    x ∈ mapKeys (mapSet m k v) ↔ x ∈ mapKeys m ∨ x = k := by
  induction m with
  | nil => simp [mapSet, mapKeys]
  | cons hd tl ih =>
    obtain ⟨k₀, v₀⟩ := hd
    by_cases h0 : k₀ = k
    · simp only [mapSet, if_pos h0, mapKeys, List.map_cons, List.mem_cons]
      subst h0
      tauto
    · simp only [mapSet, if_neg h0, mapKeys, List.map_cons, List.mem_cons]
      simp only [mapKeys] at ih
      rw [ih]
      tauto

theorem mapKeys_mapSet_nodup (m : List (String × α)) (k : String) (v : α)
    (h : (mapKeys m).Nodup) : (mapKeys (mapSet m k v)).Nodup := by
  induction m with
  | nil => simp [mapSet, mapKeys]
  | cons hd tl ih =>
    obtain ⟨k₀, v₀⟩ := hd
    simp only [mapKeys, List.map_cons, List.nodup_cons] at h
    by_cases h0 : k₀ = k
    · simp only [mapSet, if_pos h0, mapKeys, List.map_cons, List.nodup_cons]
      subst h0
      exact h
    · simp only [mapSet, if_neg h0, mapKeys, List.map_cons, List.nodup_cons]
      refine ⟨?_, ih h.2⟩
      intro hmem
      rcases (mem_mapKeys_mapSet tl k k₀ v).mp hmem with hmem | hmem
      · exact h.1 hmem
      · exact h0 hmem

theorem moveToTopOfFlex_length_le (key : String) (v : V) (flex : List (String × V)) :
    (moveToTopOfFlex key v flex).length ≤ flexLimit := by
  simp only [moveToTopOfFlex]
  by_cases h : flexLimit ≤ (mapDelete flex key).length
  · rw [if_pos h]
    have h1 := mapSet_length_le
      ((mapDelete flex key).take (flexLimit - flexClearAmount)) key v
    have h2 : ((mapDelete flex key).take (flexLimit - flexClearAmount)).length ≤
        flexLimit - flexClearAmount := by
      rw [List.length_take]
      exact Nat.min_le_left _ _
    simp only [flexLimit, flexClearAmount] at h1 h2 ⊢
    omega
  · rw [if_neg h]
    have h1 := mapSet_length_le (mapDelete flex key) key v
    simp only [flexLimit] at h ⊢
    omega

theorem handle_flex_length_le (now : Int) (endpoint : String)
    (params : List (String × String)) (fr : Except ε V) (s : CMState V)
    (h : s.flexCache.length ≤ flexLimit) :
    (handle now endpoint params fr s).state.flexCache.length ≤ flexLimit := by
  by_cases hbl : endpoint ∈ blacklistedEndpoints
  · rw [handle_blacklisted now endpoint params fr s hbl]
    exact h
  by_cases hp : endpoint ∈ primaryEndpoints
  · cases hbase : mapGet (applyBaseRefresh now (applyFavoriteReset now s)).baseCache
        (cacheKey endpoint params) with
    | some cached =>
      have hEq : handle now endpoint params fr s =
          ⟨Except.ok cached, applyBaseRefresh now (applyFavoriteReset now s), false⟩ := by
        simp only [handle, if_neg hbl, if_pos hp, hbase]
      rw [hEq]
      simpa using h
    | none =>
      cases fr with
      | ok data =>
        have hEq : handle (ε := ε) now endpoint params (Except.ok data) s =
            ⟨Except.ok data,
             { applyBaseRefresh now (applyFavoriteReset now s) with
                baseCache := mapSet (applyBaseRefresh now (applyFavoriteReset now s)).baseCache
                  (cacheKey endpoint params) data }, true⟩ := by
          simp only [handle, if_neg hbl, if_pos hp, hbase]
        rw [hEq]
        simpa using h
      | error err =>
        have hEq : handle now endpoint params (Except.error err) s =
            ⟨Except.error err, applyBaseRefresh now (applyFavoriteReset now s), true⟩ := by
          simp only [handle, if_neg hbl, if_pos hp, hbase]
        rw [hEq]
        simpa using h
  · cases hfav : mapGet (applyFavoriteReset now s).favoriteCache (cacheKey endpoint params) with
    | some cached =>
      have hEq : handle now endpoint params fr s =
          ⟨Except.ok cached, applyFavoriteReset now s, false⟩ := by
        simp only [handle, if_neg hbl, if_neg hp, hfav]
      rw [hEq]
      simpa using h
    | none =>
      cases hflex : mapGet (applyFavoriteReset now s).flexCache (cacheKey endpoint params) with
      | some value =>
        have hEq : handle now endpoint params fr s =
            ⟨Except.ok value,
             { (incrementAccessCount (cacheKey endpoint params) (applyFavoriteReset now s)).2 with
                flexCache := moveToTopOfFlex (cacheKey endpoint params) value
                  (incrementAccessCount (cacheKey endpoint params)
                    (applyFavoriteReset now s)).2.flexCache },
             false⟩ := by
          simp only [handle, if_neg hbl, if_neg hp, hfav, hflex]
        rw [hEq]
        exact moveToTopOfFlex_length_le _ _ _
      | none =>
        cases fr with
        | ok data =>
          have hEq : handle (ε := ε) now endpoint params (Except.ok data) s =
              ⟨Except.ok data,
               (incrementAccessCount (cacheKey endpoint params)
                 { applyFavoriteReset now s with
                    flexCache := moveToTopOfFlex (cacheKey endpoint params) data
                      (applyFavoriteReset now s).flexCache }).2,
               true⟩ := by
            simp only [handle, if_neg hbl, if_neg hp, hfav, hflex]
          rw [hEq]
          rcases incrementAccessCount_flexCache_or (cacheKey endpoint params)
              { applyFavoriteReset now s with
                 flexCache := moveToTopOfFlex (cacheKey endpoint params) data
                   (applyFavoriteReset now s).flexCache } with hor | hor
          · rw [hor]
            exact moveToTopOfFlex_length_le _ _ _
          · rw [hor]
            exact le_trans (mapDelete_length_le _ _) (moveToTopOfFlex_length_le _ _ _)
        | error err =>
          have hEq : handle now endpoint params (Except.error err) s =
              ⟨Except.error err, applyFavoriteReset now s, true⟩ := by
            simp only [handle, if_neg hbl, if_neg hp, hfav, hflex]
          rw [hEq]
          simpa using h

/-- C8: starting from the constructor state, after any sequence of
`handle` calls the flex tier never holds more than `flexLimit` (100)
entries, however many distinct non-primary keys are presented. -/
theorem c8_flex_bounded (t0 : Int) (reqs : List (Request ε V)) :
    (runRequests (initState t0) reqs).flexCache.length ≤ flexLimit := by
  suffices hstep : ∀ (rs : List (Request ε V)) (s : CMState V),
      s.flexCache.length ≤ flexLimit → (runRequests s rs).flexCache.length ≤ flexLimit by
    refine hstep reqs (initState t0) ?_
    simp [initState, flexLimit]
  intro rs
  induction rs with
  | nil =>
    intro s hs
    exact hs
  | cons r rest ih =>
    intro s hs
    exact ih _ (handle_flex_length_le r.now r.endpoint r.params r.fetchResult s hs)

/-- C2 counterexample: inserting a fresh key into a full flex tier
(100 entries `k0 .. k99`, `k0` oldest) retains the oldest entry `k0` and
discards the newest prior entry `k99` — the opposite of discarding the
oldest and retaining the newest. -/
theorem c2_counterexample :
    (let r := moveToTopOfFlex "new" 999 sampleFlex;
    mapGet r "k0" = some 0 ∧ mapGet r "k99" = none ∧ r.length = 41) := by
  decide

/-- C2 (amended): whenever a key is inserted into the flex tier while
the entry count excluding that key is at or above the capacity bound
(100), the bulk eviction retains exactly the `capacity − clearAmount`
(40) oldest-inserted entries and discards the newest, after which the
target key is appended as the newest entry. -/
theorem c2_bulk_eviction_keeps_oldest (key : String) (v : V)
    (flex : List (String × V))
    (hnodup : (mapKeys flex).Nodup)
    (hlen : flexLimit ≤ (mapDelete flex key).length) :
    moveToTopOfFlex key v flex =
      (mapDelete flex key).take (flexLimit - flexClearAmount) ++ [(key, v)] := by
  have hnone : mapGet (mapDelete flex key) key = none :=
    mapGet_mapDelete_self flex key hnodup
  have hnot : key ∉ mapKeys (mapDelete flex key) :=
    (mapGet_eq_none_iff _ _).mp hnone
  have hnot2 : key ∉ mapKeys ((mapDelete flex key).take (flexLimit - flexClearAmount)) := by
    intro hmem
    apply hnot
    simp only [mapKeys] at hmem ⊢
    rw [List.map_take] at hmem
    exact List.take_subset _ _ hmem
  simp only [moveToTopOfFlex, if_pos hlen]
  exact mapSet_of_not_mem _ _ _ hnot2

/-- Witness for C2 (amended) at a concrete input: the full 100-entry
tier keeps its 40 oldest entries and appends the fresh key. -/
theorem c2_bulk_eviction_keeps_oldest_witness :
    moveToTopOfFlex "new" 999 sampleFlex =
      (mapDelete sampleFlex "new").take (flexLimit - flexClearAmount) ++ [("new", 999)] :=
  c2_bulk_eviction_keeps_oldest "new" 999 sampleFlex (by decide) (by decide)

/-- C1 counterexample: seven identical default-tier requests promote the
key to the favorite tier, yet the key is simultaneously present in the
flex tier afterwards, because the hit path re-inserts it after the
promotion. -/
theorem c1_counterexample :
    (let s7 := runRequests (ε := String) (V := Nat) (initState 0)
      (List.replicate 7 ⟨0, "/x", [], Except.ok 0⟩);
    mapHas s7.flexCache (cacheKey "/x" []) = true ∧
      mapHas s7.favoriteCache (cacheKey "/x" []) = true) := by
  decide

/-- C1 (amended): when a flex hit raises the access count to the
promotion threshold, the value is copied into the favorite tier and the
counter is deleted, but the hit path then re-inserts the key into the
flex tier, so immediately after promotion the key is present in both
tiers; subsequent identical requests (before the favorite reset
interval) are served from the favorite tier and leave the state — stale
flex entry included — unchanged. -/
theorem c1_promotion_reinserts_into_flex (now : Int) (endpoint : String)
    (params : List (String × String)) (fr : Except ε V) (v : V) (s : CMState V)
    (hb : endpoint ∉ blacklistedEndpoints)
    (hp : endpoint ∉ primaryEndpoints)
    (hr : now - s.lastFavoriteReset ≤ favoriteResetInterval)
    (hfav : mapGet s.favoriteCache (cacheKey endpoint params) = none)
    (hflex : mapGet s.flexCache (cacheKey endpoint params) = some v)
    (hcount : mapGet s.flexAccessCounts (cacheKey endpoint params) =
      some (favoriteThreshold - 1)) :
    (handle now endpoint params fr s).result = Except.ok v ∧
    mapGet (handle now endpoint params fr s).state.favoriteCache
      (cacheKey endpoint params) = some v ∧
    mapGet (handle now endpoint params fr s).state.flexCache
      (cacheKey endpoint params) = some v ∧
    (∀ (now2 : Int) (fr2 : Except ε V),
      now2 - s.lastFavoriteReset ≤ favoriteResetInterval →
      handle now2 endpoint params fr2 (handle now endpoint params fr s).state =
        ⟨Except.ok v, (handle now endpoint params fr s).state, false⟩) := by
  have hreset := applyFavoriteReset_of_not_needed now s
    (needsFavoriteCacheReset_eq_false now s hr)
  have hinc : incrementAccessCount (cacheKey endpoint params) s =
      (favoriteThreshold,
       { s with
          favoriteCache := mapSet s.favoriteCache (cacheKey endpoint params) v,
          flexCache := mapDelete s.flexCache (cacheKey endpoint params),
          flexAccessCounts := mapDelete
            (mapSet s.flexAccessCounts (cacheKey endpoint params) favoriteThreshold)
            (cacheKey endpoint params) }) := by
    simp only [incrementAccessCount, hcount, Option.getD_some, favoriteThreshold, hflex]
    norm_num
  have hEq : handle now endpoint params fr s =
      ⟨Except.ok v,
       { s with
          favoriteCache := mapSet s.favoriteCache (cacheKey endpoint params) v,
          flexCache := moveToTopOfFlex (cacheKey endpoint params) v
            (mapDelete s.flexCache (cacheKey endpoint params)),
          flexAccessCounts := mapDelete
            (mapSet s.flexAccessCounts (cacheKey endpoint params) favoriteThreshold)
            (cacheKey endpoint params) },
       false⟩ := by
    simp only [handle, if_neg hb, if_neg hp, hreset, hfav, hflex, hinc]
  refine ⟨by rw [hEq], by rw [hEq]; exact mapGet_mapSet_self _ _ _, ?_, ?_⟩
  · rw [hEq]
    show mapGet (moveToTopOfFlex (cacheKey endpoint params) v
      (mapDelete s.flexCache (cacheKey endpoint params))) (cacheKey endpoint params) = some v
    simp only [moveToTopOfFlex]
    exact mapGet_mapSet_self _ _ _
  · intro now2 fr2 hr2
    rw [hEq]
    refine handle_favorite_hit now2 endpoint params fr2 _ v hb hp ?_ ?_
    · exact needsFavoriteCacheReset_eq_false now2 _ hr2
    · exact mapGet_mapSet_self _ _ _

/-- Witness for C1 (amended) at a concrete input: a key with count 6 and
value 42 resident in flex is promoted on the next hit and ends up in
both tiers; the follow-up request is a pure favorite hit. -/
theorem c1_promotion_reinserts_into_flex_witness :
    (handle (ε := String) 1 "/x" [] (Except.error "unused")
      (⟨[], 0, [(cacheKey "/x" [], 42)], [(cacheKey "/x" [], 6)], [], 0⟩ : CMState Nat)).result =
        Except.ok 42 ∧
    mapGet (handle (ε := String) 1 "/x" [] (Except.error "unused")
      (⟨[], 0, [(cacheKey "/x" [], 42)], [(cacheKey "/x" [], 6)], [], 0⟩ : CMState Nat)).state.favoriteCache
      (cacheKey "/x" []) = some 42 ∧
    mapGet (handle (ε := String) 1 "/x" [] (Except.error "unused")
      (⟨[], 0, [(cacheKey "/x" [], 42)], [(cacheKey "/x" [], 6)], [], 0⟩ : CMState Nat)).state.flexCache
      (cacheKey "/x" []) = some 42 ∧
    (∀ (now2 : Int) (fr2 : Except String Nat),
      now2 - (0 : Int) ≤ favoriteResetInterval →
      handle now2 "/x" [] fr2
        (handle (ε := String) 1 "/x" [] (Except.error "unused")
          (⟨[], 0, [(cacheKey "/x" [], 42)], [(cacheKey "/x" [], 6)], [], 0⟩ : CMState Nat)).state =
        ⟨Except.ok 42,
         (handle (ε := String) 1 "/x" [] (Except.error "unused")
           (⟨[], 0, [(cacheKey "/x" [], 42)], [(cacheKey "/x" [], 6)], [], 0⟩ : CMState Nat)).state,
         false⟩) :=
  c1_promotion_reinserts_into_flex 1 "/x" [] (Except.error "unused") 42
    ⟨[], 0, [(cacheKey "/x" [], 42)], [(cacheKey "/x" [], 6)], [], 0⟩
    (by decide) (by decide) (by decide) (by decide) (by decide) (by decide)

/-- C4 counterexample: with the flex tier full (`k0 .. k99`) and key
`k50` tracked with access count 3, a miss on a fresh endpoint bulk-evicts
`k50` from the flex tier while its counter entry survives — eviction does
not delete access-count bookkeeping. -/
theorem c4_counterexample :
    (let s' := (handle (ε := String) 0 "/y" [] (Except.ok 999) c4State).state;
    mapHas s'.flexCache "k50" = false ∧
      mapGet s'.flexAccessCounts "k50" = some 3) := by
  decide

/-- C4 (amended): the counter entry of a key is deleted when the key is
promoted to the favorite tier, but bulk eviction does not touch the
counter map: a `handle` call never changes the counter of any key other
than the current request's key, even when that key is evicted from the
flex tier during the call. -/
theorem c4_access_counts :
    (∀ (key : String) (s : CMState V),
      (mapKeys s.flexAccessCounts).Nodup →
      favoriteThreshold ≤ (mapGet s.flexAccessCounts key).getD 0 + 1 →
      mapGet (incrementAccessCount key s).2.flexAccessCounts key = none) ∧
    (∀ (now : Int) (endpoint : String) (params : List (String × String))
        (fr : Except ε V) (s : CMState V) (k : String),
      k ≠ cacheKey endpoint params →
      mapGet (handle now endpoint params fr s).state.flexAccessCounts k =
        mapGet s.flexAccessCounts k) := by
  constructor
  · intro key s hnodup hthr
    simp only [incrementAccessCount, if_pos hthr]
    cases hv : mapGet
        ({ s with flexAccessCounts :=
            mapSet s.flexAccessCounts key ((mapGet s.flexAccessCounts key).getD 0 + 1) } :
          CMState V).flexCache key with
    | some value =>
      simp only [hv]
      exact mapGet_mapDelete_self _ _ (mapKeys_mapSet_nodup _ _ _ hnodup)
    | none =>
      simp only [hv]
      exact mapGet_mapDelete_self _ _ (mapKeys_mapSet_nodup _ _ _ hnodup)
  · intro now endpoint params fr s k hk
    by_cases hbl : endpoint ∈ blacklistedEndpoints
    · rw [handle_blacklisted now endpoint params fr s hbl]
    by_cases hp : endpoint ∈ primaryEndpoints
    · cases hbase : mapGet (applyBaseRefresh now (applyFavoriteReset now s)).baseCache
          (cacheKey endpoint params) with
      | some cached =>
        have hEq : handle now endpoint params fr s =
            ⟨Except.ok cached, applyBaseRefresh now (applyFavoriteReset now s), false⟩ := by
          simp only [handle, if_neg hbl, if_pos hp, hbase]
        rw [hEq]
        simp
      | none =>
        cases fr with
        | ok data =>
          have hEq : handle (ε := ε) now endpoint params (Except.ok data) s =
              ⟨Except.ok data,
               { applyBaseRefresh now (applyFavoriteReset now s) with
                  baseCache := mapSet (applyBaseRefresh now (applyFavoriteReset now s)).baseCache
                    (cacheKey endpoint params) data }, true⟩ := by
            simp only [handle, if_neg hbl, if_pos hp, hbase]
          rw [hEq]
          simp
        | error err =>
          have hEq : handle now endpoint params (Except.error err) s =
              ⟨Except.error err, applyBaseRefresh now (applyFavoriteReset now s), true⟩ := by
            simp only [handle, if_neg hbl, if_pos hp, hbase]
          rw [hEq]
          simp
    · cases hfav : mapGet (applyFavoriteReset now s).favoriteCache (cacheKey endpoint params) with
      | some cached =>
        have hEq : handle now endpoint params fr s =
            ⟨Except.ok cached, applyFavoriteReset now s, false⟩ := by
          simp only [handle, if_neg hbl, if_neg hp, hfav]
        rw [hEq]
        simp
      | none =>
        cases hflex : mapGet (applyFavoriteReset now s).flexCache (cacheKey endpoint params) with
        | some value =>
          have hEq : handle now endpoint params fr s =
              ⟨Except.ok value,
               { (incrementAccessCount (cacheKey endpoint params) (applyFavoriteReset now s)).2 with
                  flexCache := moveToTopOfFlex (cacheKey endpoint params) value
                    (incrementAccessCount (cacheKey endpoint params)
                      (applyFavoriteReset now s)).2.flexCache },
               false⟩ := by
            simp only [handle, if_neg hbl, if_neg hp, hfav, hflex]
          rw [hEq]
          have hne := incrementAccessCount_counts_ne (cacheKey endpoint params) k
            (applyFavoriteReset now s) hk
          simpa using hne
        | none =>
          cases fr with
          | ok data =>
            have hEq : handle (ε := ε) now endpoint params (Except.ok data) s =
                ⟨Except.ok data,
                 (incrementAccessCount (cacheKey endpoint params)
                   { applyFavoriteReset now s with
                      flexCache := moveToTopOfFlex (cacheKey endpoint params) data
                        (applyFavoriteReset now s).flexCache }).2,
                 true⟩ := by
              simp only [handle, if_neg hbl, if_neg hp, hfav, hflex]
            rw [hEq]
            have hne := incrementAccessCount_counts_ne (cacheKey endpoint params) k
              { applyFavoriteReset now s with
                 flexCache := moveToTopOfFlex (cacheKey endpoint params) data
                   (applyFavoriteReset now s).flexCache } hk
            simpa using hne
          | error err =>
            have hEq : handle now endpoint params (Except.error err) s =
                ⟨Except.error err, applyFavoriteReset now s, true⟩ := by
              simp only [handle, if_neg hbl, if_neg hp, hfav, hflex]
            rw [hEq]
            simp

/-- Witness for C4 (amended) at concrete inputs: a seventh access deletes
the counter of key `p`; a fresh-endpoint call over a full flex tier
leaves the evicted key `k50` with its counter value 3. -/
theorem c4_access_counts_witness :
    mapGet (incrementAccessCount "p"
      (⟨[], 0, [("p", 9)], [("p", 6)], [], 0⟩ : CMState Nat)).2.flexAccessCounts "p" = none ∧
    mapGet (handle (ε := String) 0 "/y" [] (Except.ok 999) c4State).state.flexAccessCounts "k50" =
      mapGet c4State.flexAccessCounts "k50" :=
  ⟨(c4_access_counts (V := Nat) (ε := String)).1 "p"
      ⟨[], 0, [("p", 9)], [("p", 6)], [], 0⟩ (by decide) (by decide),
   (c4_access_counts (V := Nat) (ε := String)).2 0 "/y" [] (Except.ok 999)
      c4State "k50" (by decide)⟩

/-- C10: in the generic keyed entry store, `create` on an existing key
fails with the duplicate-key error and leaves the store unchanged;
`create` on a fresh key returns `true` and inserts an entry whose access
count is zero; `get` on a missing key returns `null` and leaves the
store unchanged. -/
theorem c10_baseCache_create_get (now now2 : Int) (key : String) (v : V)
    (s : BaseCache V) :
    (mapHas s.cache key = true →
      BaseCache.create now key v s =
        (Except.error ("Key " ++ key ++ " already exists in cache " ++ s.cacheName), s)) ∧
    (mapHas s.cache key = false →
      (BaseCache.create now key v s).1 = Except.ok true ∧
      mapGet (BaseCache.create now key v s).2.cache key = some ⟨v, now, now, 0⟩) ∧
    (mapGet s.cache key = none → BaseCache.get now2 key s = (none, s)) := by
  refine ⟨?_, ?_, ?_⟩
  · intro h
    simp only [BaseCache.create, if_pos h]
  · intro h
    have h' : ¬ mapHas s.cache key = true := by simp [h]
    refine ⟨?_, ?_⟩
    · simp only [BaseCache.create, if_neg h']
    · simp only [BaseCache.create, if_neg h']
      exact mapGet_mapSet_self _ _ _
  · intro h
    simp only [BaseCache.get, h]

/-- Witness for C10 at concrete inputs: duplicate `create` on key `k`
errors and preserves the store; fresh `create` on key `j` succeeds with
access count 0; `get` on the absent key `x` returns `null` without
mutation. -/
theorem c10_baseCache_create_get_witness :
    (BaseCache.create (V := Nat) 5 "k" 2 ⟨[("k", ⟨1, 0, 0, 0⟩)], "DefaultCache", 0, 0⟩ =
      (Except.error ("Key " ++ "k" ++ " already exists in cache " ++ "DefaultCache"),
       ⟨[("k", ⟨1, 0, 0, 0⟩)], "DefaultCache", 0, 0⟩)) ∧
    ((BaseCache.create (V := Nat) 5 "j" 2
        ⟨[("k", ⟨1, 0, 0, 0⟩)], "DefaultCache", 0, 0⟩).1 = Except.ok true ∧
      mapGet (BaseCache.create (V := Nat) 5 "j" 2
        ⟨[("k", ⟨1, 0, 0, 0⟩)], "DefaultCache", 0, 0⟩).2.cache "j" = some ⟨2, 5, 5, 0⟩) ∧
    (BaseCache.get (V := Nat) 9 "x" ⟨[("k", ⟨1, 0, 0, 0⟩)], "DefaultCache", 0, 0⟩ =
      (none, ⟨[("k", ⟨1, 0, 0, 0⟩)], "DefaultCache", 0, 0⟩)) :=
  ⟨(c10_baseCache_create_get 5 9 "k" 2 ⟨[("k", ⟨1, 0, 0, 0⟩)], "DefaultCache", 0, 0⟩).1
      (by decide),
   (c10_baseCache_create_get 5 9 "j" 2 ⟨[("k", ⟨1, 0, 0, 0⟩)], "DefaultCache", 0, 0⟩).2.1
      (by decide),
   (c10_baseCache_create_get 5 9 "x" 2 ⟨[("k", ⟨1, 0, 0, 0⟩)], "DefaultCache", 0, 0⟩).2.2
      (by decide)⟩

/-! ## Round-trip lemmas for the `JSON.stringify` model -/

theorem hexVal_hexDigit (n : Nat) (h : n < 16) : hexVal (hexDigit n) = n := by
  have hall : ∀ m, m < 16 → hexVal (hexDigit m) = m := by decide
  exact hall n h

theorem escChar_decode (c : Char) (h2 : c.toNat < 32) :
    Char.ofNat (16 * hexVal (hexDigit (c.toNat / 16)) +
      hexVal (hexDigit (c.toNat % 16))) = c := by
  have hd : c.toNat / 16 < 16 := by omega
  have hm : c.toNat % 16 < 16 := Nat.mod_lt _ (by norm_num)
  rw [hexVal_hexDigit _ hd, hexVal_hexDigit _ hm, Nat.div_add_mod]
  exact Char.ofNat_toNat c

theorem one_le_length_escChar (c : Char) : 1 ≤ (escChar c).length := by
  simp only [escChar]
  split
  · simp
  split
  · simp
  · simp

theorem parseEsc_escape (s : List Char) (r : List Char) (fuel : Nat)
    (hfuel : (escape s ++ '"' :: r).length ≤ fuel) :
    parseEsc fuel (escape s ++ '"' :: r) = some (s, r) := by
  induction s generalizing fuel with
  | nil =>
    cases fuel with
    | zero => simp at hfuel
    | succ f => simp [escape, parseEsc]
  | cons c t ih =>
    have hesc : escape (c :: t) ++ '"' :: r = escChar c ++ (escape t ++ '"' :: r) := by
      simp [escape]
    rw [hesc] at hfuel ⊢
    cases fuel with
    | zero =>
      exfalso
      have h1 := one_le_length_escChar c
      simp only [List.length_append] at hfuel
      omega
    | succ f =>
      have hf : (escape t ++ '"' :: r).length ≤ f := by
        have h1 := one_le_length_escChar c
        simp only [List.length_append] at hfuel ⊢
        omega
      by_cases h1 : c = '"' ∨ c = '\\'
      · rcases h1 with h1 | h1 <;> subst h1 <;> simp [escChar, parseEsc, ih f hf]
      · by_cases h2 : c.toNat < 32
        · simp only [escChar, if_neg h1, if_pos h2, List.cons_append, List.nil_append]
          simp [parseEsc, ih f hf, escChar_decode c h2]
        · push_neg at h1
          simp only [escChar, if_neg (not_or.mpr ⟨h1.1, h1.2⟩), if_neg h2,
            List.cons_append, List.nil_append]
          simp [parseEsc, h1.1, h1.2, ih f hf]

theorem parsePair_pairChars (p : String × String) (r : List Char) :
    parsePair (pairChars p ++ r) = some (p, r) := by
  obtain ⟨k, v⟩ := p
  have h : pairChars (k, v) ++ r =
      '"' :: (escape k.data ++ '"' :: (':' :: ('"' :: (escape v.data ++ '"' :: r)))) := by
    simp [pairChars, jstrChars]
  rw [h]
  simp [parsePair, parseEsc_escape]

theorem length_le_length_pairsChars (ps : List (String × String)) :
    ps.length ≤ (pairsChars ps).length := by
  induction ps with
  | nil => simp [pairsChars]
  | cons p rest ih =>
    have h1 : 1 ≤ (pairChars p).length := by simp [pairChars, jstrChars]
    cases rest with
    | nil => simpa [pairsChars] using h1
    | cons q rest2 =>
      simp only [pairsChars, List.length_append, List.length_cons] at ih ⊢
      omega

theorem parsePairsAux_pairsChars (ps : List (String × String)) (r : List Char) :
    ∀ fuel, ps ≠ [] → ps.length ≤ fuel →
      parsePairsAux fuel (pairsChars ps ++ rbrace :: r) = some (ps, r) := by
  induction ps with
  | nil =>
    intro fuel hne
    exact absurd rfl hne
  | cons p rest ih =>
    intro fuel hne hfuel
    cases fuel with
    | zero => simp at hfuel
    | succ fuel =>
      cases rest with
      | nil =>
        have h : pairsChars [p] ++ rbrace :: r = pairChars p ++ rbrace :: r := by
          simp [pairsChars]
        rw [h]
        simp [parsePairsAux, parsePair_pairChars, rbrace]
      | cons q rest2 =>
        have h : pairsChars (p :: q :: rest2) ++ rbrace :: r =
            pairChars p ++ ',' :: (pairsChars (q :: rest2) ++ rbrace :: r) := by
          simp [pairsChars]
        rw [h]
        have hfuel2 : (q :: rest2).length ≤ fuel := by
          simp only [List.length_cons] at hfuel ⊢
          omega
        simp [parsePairsAux, parsePair_pairChars,
          ih fuel (by simp) hfuel2]

theorem pairsChars_cons_shape (p : String × String) (rest : List (String × String)) :
    ∃ X, pairsChars (p :: rest) = '"' :: X := by
  cases rest with
  | nil =>
    simp only [pairsChars, pairChars, jstrChars, List.cons_append, List.append_assoc]
    exact ⟨_, rfl⟩
  | cons q rest2 =>
    simp only [pairsChars, pairChars, jstrChars, List.cons_append, List.append_assoc]
    exact ⟨_, rfl⟩

theorem parseObj_jsonStringify (ps : List (String × String)) (r : List Char) :
    parseObj ((jsonStringify ps).data ++ r) = some (ps, r) := by
  cases ps with
  | nil => simp [jsonStringify, pairsChars, parseObj, lbrace, rbrace]
  | cons p rest =>
    obtain ⟨X, hX⟩ := pairsChars_cons_shape p rest
    have hdata : (jsonStringify (p :: rest)).data ++ r =
        lbrace :: ('"' :: (X ++ rbrace :: r)) := by
      show (lbrace :: pairsChars (p :: rest) ++ [rbrace]) ++ r = _
      rw [hX]
      simp
    rw [hdata]
    have hb : ¬ (lbrace = lbrace ∧ ('"' : Char) = rbrace) := by decide
    have hY : '"' :: (X ++ rbrace :: r) = pairsChars (p :: rest) ++ rbrace :: r := by
      rw [hX]
      simp
    simp only [parseObj, if_neg hb, if_pos rfl, hY]
    refine parsePairsAux_pairsChars (p :: rest) r _ (by simp) ?_
    have h1 := length_le_length_pairsChars (p :: rest)
    simp only [List.length_cons] at h1 ⊢
    simp only [List.length_append, List.length_cons]
    omega

theorem jsonStringify_injective (p1 p2 : List (String × String))
    (h : jsonStringify p1 = jsonStringify p2) : p1 = p2 := by
  have h1 := parseObj_jsonStringify p1 []
  have h2 := parseObj_jsonStringify p2 []
  rw [h] at h1
  have h3 : some (p1, ([] : List Char)) = some (p2, ([] : List Char)) :=
    h1.symm.trans h2
  simpa using h3

/-- C3 counterexample: the same two parameter pairs presented in a
different key order produce different cache keys, because
`JSON.stringify` serializes properties in object insertion order without
sorting. -/
theorem c3_counterexample :
    List.Perm [("a", "1"), ("b", "2")] [("b", "2"), ("a", "1")] ∧
    cacheKey "/search/movie" [("a", "1"), ("b", "2")] ≠
      cacheKey "/search/movie" [("b", "2"), ("a", "1")] := by
  decide

/-- C3 (amended): for every endpoint, two parameter lists produce the
same cache key exactly when they are the same ordered list — the same
pairs in the same order give the same key, while any difference in the
pairs or in their order gives a different key. -/
theorem c3_cacheKey_injective (endpoint : String)
    (p1 p2 : List (String × String)) :
    cacheKey endpoint p1 = cacheKey endpoint p2 ↔ p1 = p2 := by
  constructor
  · intro h
    apply jsonStringify_injective
    have hdata : (endpoint ++ "_" ++ jsonStringify p1).data =
        (endpoint ++ "_" ++ jsonStringify p2).data := congrArg String.data h
    have hsplit : ∀ q : List (String × String),
        (endpoint ++ "_" ++ jsonStringify q).data =
          (endpoint ++ "_").data ++ (jsonStringify q).data := by
      intro q
      rfl
    rw [hsplit p1, hsplit p2] at hdata
    have hd := List.append_cancel_left hdata
    show jsonStringify p1 = jsonStringify p2
    calc jsonStringify p1 = ⟨(jsonStringify p1).data⟩ := rfl
      _ = ⟨(jsonStringify p2).data⟩ := by rw [hd]
      _ = jsonStringify p2 := rfl
  · intro h
    rw [h]

end StreamKeeper
